import Mathlib

/-!
Verification of the codex-tools annotation scripts.

The repository consists of three Python scripts that add machine-generated
comments or docstrings to source code:
  - auto-commenter/auto-commenter.py  (functions split_into_chunks,
    comment_chunk, comment_code, comment_code_from_file, ...)
  - auto-docstring/auto-docstring.py  (functions get_code_chunks, get_prompt,
    get_response, extract_function_code, output_code, main)
  - auto-commenter.py                 (functions get_functions, split_code, ...)

Below, Python strings are modelled as List Char.  Each definition embeds one
Python function or expression from the sources; the external completion
service is modelled as a pure function from prompt text to completion text
(the scripts call it at temperature 0), and the HTTP layer as an explicit
response value.  File and console I/O is modelled only where a claim needs
it (the choice of output destination).
-/

/-- Python's notion of a whitespace character (re module class backslash-s)
restricted to the characters it actually recognizes: ASCII whitespace,
the C1 and Unicode space separators. -/
def isPySpace (c : Char) : Bool :=
  c == ' ' || c == '\t' || c == '\n' || c == '\r' || c == '\x0b' || c == '\x0c' ||
  c == '\x1c' || c == '\x1d' || c == '\x1e' || c == '\x1f' || c == '\x85' || c == '\xa0' ||
  c == ' ' || (0x2000 ≤ c.toNat && c.toNat ≤ 0x200a) ||
  c == ' ' || c == ' ' || c == ' ' || c == ' ' || c == '　'

/-- The characters Python's str.splitlines treats as line boundaries. -/
def isLineBreak (c : Char) : Bool :=
  c == '\n' || c == '\r' || c == '\x0b' || c == '\x0c' ||
  c == '\x1c' || c == '\x1d' || c == '\x1e' || c == '\x85' ||
  c == ' ' || c == ' '

/-- Worker for splitlines.  afterCR records whether the previous character
was a carriage return, so that a CR LF pair counts as a single boundary;
cur is the current line accumulated in reverse. -/
def splitlinesAux (afterCR : Bool) (cur : List Char) : List Char → List (List Char)
  | [] => if cur.isEmpty then [] else [cur.reverse]
  | c :: t =>
    if afterCR = true ∧ c = '\n' then splitlinesAux false [] t
    else if c = '\r' then cur.reverse :: splitlinesAux true [] t
    else if isLineBreak c = true then cur.reverse :: splitlinesAux false [] t
    else splitlinesAux false (c :: cur) t

/-- Python str.splitlines (without keepends), as used by split_into_chunks. -/
def splitlines (cs : List Char) : List (List Char) :=
  splitlinesAux false [] cs

/-- keyword followed by one whitespace character, at the head of the list. -/
def startsKeyword (kw : List Char) (l : List Char) : Bool :=
  kw.isPrefixOf l &&
    (match l.drop kw.length with
     | c :: _ => isPySpace c
     | [] => false)

/-- The line test of split_into_chunks: Python regex
re.match of caret backslash-s star (def or public or private) backslash-s
against the line.  Equivalently: after stripping leading whitespace the line
starts with one of the keywords followed by a whitespace character. -/
def isDefLine (line : List Char) : Bool :=
  let r := line.dropWhile isPySpace
  startsKeyword ("def".toList) r || startsKeyword ("public".toList) r ||
    startsKeyword ("private".toList) r

/-- Loop body of split_into_chunks (auto-commenter/auto-commenter.py lines
74-89): cur is the chunk accumulated so far; a matching line appends the
current chunk and starts a new one; every line is appended to the current
chunk followed by a newline; the final chunk is appended at the end. -/
def sicAux (cur : List Char) : List (List Char) → List (List Char)
  | [] => [cur]
  | line :: rest =>
    if isDefLine line then cur :: sicAux (line ++ ['\n']) rest
    else sicAux (cur ++ line ++ ['\n']) rest

/-- split_into_chunks from auto-commenter/auto-commenter.py (lines 70-91). -/
def split_into_chunks (code : List Char) : List (List Char) :=
  sicAux [] (splitlines code)

/-- Python sep.flatten(parts). -/
def pyJoin (sep : List Char) : List (List Char) → List Char
  | [] => []
  | [x] => x
  | x :: y :: t => x ++ sep ++ pyJoin sep (y :: t)

/-- comment_chunk from auto-commenter/auto-commenter.py (lines 93-112), with
the worked-example file contents and the completion service abstracted as
parameters: the prompt is the example, a newline, the chunk, and the fixed
sentinel line; the oracle's text is returned unconditionally (the script
performs no comparison against the original chunk). -/
def comment_chunk (ex : List Char) (oracle : List Char → List Char)
    (chunk : List Char) : List Char :=
  oracle (ex ++ '\n' :: chunk ++ ("\nSame function with verbose inline comments:\n").toList)

/-- comment_code from auto-commenter/auto-commenter.py (lines 114-123):
every chunk produced by split_into_chunks, including the leading preamble
chunk, is passed to comment_chunk, and the results are joined with a
newline. -/
def comment_code (ex : List Char) (oracle : List Char → List Char)
    (code : List Char) : List Char :=
  pyJoin ['\n'] ((split_into_chunks code).map (comment_chunk ex oracle))




/-- Worker for Python code.split of the two-character separator newline
newline, used by get_code_chunks (auto-docstring/auto-docstring.py line 144):
splits at each leftmost non-overlapping occurrence. -/
def splitNNAux (cur : List Char) : List Char → List (List Char)
  | '\n' :: '\n' :: t => cur.reverse :: splitNNAux [] t
  | c :: t => splitNNAux (c :: cur) t
  | [] => [cur.reverse]

/-- Python code.split on a double newline. -/
def pySplitNN (code : List Char) : List (List Char) :=
  splitNNAux [] code

/-- First filter regex of get_code_chunks: re.match of
backslash-s star backslash-n star then the four characters d e f space.
Since the whitespace class contains the newline, this holds exactly when
the chunk starts with the keyword after some leading whitespace. -/
def matchesChunkDef (chunk : List Char) : Bool :=
  ("def ".toList).isPrefixOf (chunk.dropWhile isPySpace)

/-- Second filter regex of get_code_chunks: re.match of
backslash-s plus then d e f space, i.e. at least one leading whitespace
character before the keyword. -/
def matchesIndentedDef (chunk : List Char) : Bool :=
  (match chunk with
   | c :: _ => isPySpace c
   | [] => false) &&
  ("def ".toList).isPrefixOf (chunk.dropWhile isPySpace)

/-- get_code_chunks from auto-docstring/auto-docstring.py (lines 132-153):
split the code on blank lines (double newline) and keep only the pieces that
match the definition regex and are not indented definitions. -/
def get_code_chunks (code : List Char) : List (List Char) :=
  (pySplitNN code).filter (fun ch => matchesChunkDef ch && !matchesIndentedDef ch)

/-- The literal instruction line appended to every docstring prompt
(auto-docstring/auto-docstring.py line 173). -/
def autodocLine : List Char :=
  ("#autodoc: A comprehensive PEP 257 Google style doctring, including a brief one-line summary of the function.").toList

/-- get_prompt from auto-docstring/auto-docstring.py (lines 155-175): the
example file contents, the chunk and the instruction line joined by blank
lines. -/
def get_prompt (ex : List Char) (code_chunk : List Char) : List Char :=
  pyJoin ("\n\n".toList) [ex, code_chunk, autodocLine]

/-- The first re.sub of extract_function_code (line 236): remove a leading
definition line, i.e. a match of caret backslash-s star, the keyword, at
least one non-newline character, and a newline, anchored at the start of
the string; if there is no such match the chunk is returned unchanged. -/
def reSubDefLine (chunk : List Char) : List Char :=
  let afterWs := chunk.dropWhile isPySpace
  if ("def ".toList).isPrefixOf afterWs then
    let afterDef := afterWs.drop 4
    let lineRest := afterDef.takeWhile (fun c => c != '\n')
    if lineRest.isEmpty then chunk
    else
      match afterDef.drop lineRest.length with
      | '\n' :: tail => tail
      | _ => chunk
  else chunk

/-- Split a string at the first occurrence of three double-quote characters,
returning the text before and after it; none when there is no occurrence.
Models the re.split on the triple quote in extract_function_code (line 238)
and the non-greedy search of its final re.sub. -/
def splitAtTriple : List Char → Option (List Char × List Char)
  | '\"' :: '\"' :: '\"' :: t => some ([], t)
  | c :: t =>
    (match splitAtTriple t with
     | some (pre, post) => some (c :: pre, post)
     | none => none)
  | [] => none

/-- The final re.sub of extract_function_code (line 245): delete the first
non-greedy match of a pair of triple quotes and everything between them
(DOTALL); unchanged when there is no complete pair. -/
def removeFirstDocstring (cs : List Char) : List Char :=
  match splitAtTriple cs with
  | none => cs
  | some (pre, rest) =>
    match splitAtTriple rest with
    | none => cs
    | some (_, post) => pre ++ post

/-- extract_function_code from auto-docstring/auto-docstring.py (lines
223-249): drop the definition line; if the text before the first triple
quote contains anything besides whitespace, return the remainder unchanged,
otherwise delete the first triple-quoted docstring. -/
def extract_function_code (code_chunk : List Char) : List Char :=
  let function_code := reSubDefLine code_chunk
  let chunks0 :=
    match splitAtTriple function_code with
    | some p => p.fst
    | none => function_code
  if chunks0.all isPySpace then removeFirstDocstring function_code
  else function_code

/-- One step of the blank-line collapsing re.sub of main (line 300): the
pattern is one or more newlines, whitespace, one or more newlines,
whitespace, one or more newlines, replaced globally by two newlines.  A
match starts at a newline whose maximal whitespace run contains at least
three newlines and extends through the last newline of that run.  fuel
bounds the recursion; it is initialized to the string length, which
suffices because every step consumes at least one character. -/
def collapseAux : Nat → List Char → List Char
  | 0, s => s
  | _ + 1, [] => []
  | fuel + 1, c :: t =>
    if c = '\n' then
      let run := (c :: t).takeWhile isPySpace
      if 3 ≤ run.count '\n' then
        let m := run.length - (run.reverse.takeWhile (fun x => x != '\n')).length
        '\n' :: '\n' :: collapseAux fuel ((c :: t).drop m)
      else c :: collapseAux fuel t
    else c :: collapseAux fuel t

/-- re.sub collapsing runs of three or more newline-bearing blank lines to a
single blank line (auto-docstring/auto-docstring.py line 300). -/
def collapseBlankRuns (s : List Char) : List Char :=
  collapseAux s.length s

/-- Python s.replace(pat, rep) for an empty pattern: rep is inserted before
every character and at the end. -/
def pyReplaceEmpty (rep : List Char) : List Char → List Char
  | [] => rep
  | c :: t => rep ++ c :: pyReplaceEmpty rep t

/-- Worker for Python s.replace(pat, rep) with nonempty pattern: replace
every leftmost non-overlapping occurrence.  fuel is initialized to the
string length, which suffices because every step consumes at least one
character. -/
def pyReplaceAux (pat rep : List Char) : Nat → List Char → List Char
  | 0, s => s
  | _ + 1, [] => []
  | fuel + 1, c :: t =>
    if pat.isPrefixOf (c :: t) then rep ++ pyReplaceAux pat rep fuel ((c :: t).drop pat.length)
    else c :: pyReplaceAux pat rep fuel t

/-- Python s.replace(pat, rep), as used to splice an annotated chunk back
into the accumulated source (auto-docstring/auto-docstring.py line 305). -/
def pyReplace (s pat rep : List Char) : List Char :=
  if pat.isEmpty then pyReplaceEmpty rep s
  else pyReplaceAux pat rep s.length s

/-- Number of positions of s at which pat occurs as a prefix of the
remaining suffix (occurrences may overlap; used to reason about replace). -/
def countOcc (pat : List Char) : List Char → Nat
  | [] => 0
  | c :: t => (if pat.isPrefixOf (c :: t) then 1 else 0) + countOcc pat t

/-- The chunk rewriting of main (auto-docstring/auto-docstring.py lines
293-300): the new chunk is the oracle response, a newline, and the function
code left by extract_function_code, with repeated blank lines collapsed.
The original definition line is not re-inserted. -/
def mergeDocstringChunk (chunk response : List Char) : List Char :=
  collapseBlankRuns (response ++ '\n' :: extract_function_code chunk)

/-- One iteration of the loop of main (auto-docstring/auto-docstring.py
lines 282-305) under a successfully answering oracle: an empty response
skips the chunk; otherwise every occurrence of the chunk in the
accumulated code is replaced by the rewritten chunk. -/
def autoDocstringStep (ex : List Char) (oracle : List Char → List Char)
    (acc chunk : List Char) : List Char :=
  let response := oracle (get_prompt ex chunk)
  if response.isEmpty then acc
  else pyReplace acc chunk (mergeDocstringChunk chunk response)

/-- main of auto-docstring/auto-docstring.py (lines 269-306) as a pure
pipeline over a stubbed oracle: chunks are computed once from the original
code, then folded through the splicing loop. -/
def autoDocstringRun (ex : List Char) (oracle : List Char → List Char)
    (code : List Char) : List Char :=
  (get_code_chunks code).foldl (autoDocstringStep ex oracle) code





deriving instance DecidableEq for Except

/-- Python exceptions that the scripts can raise in the modelled paths. -/
inductive PyExc where
  | keyError
  | indexError
  | typeError
  deriving DecidableEq, Repr

/-- A completion-service HTTP response, as far as the scripts inspect it:
the status code and, when the parsed JSON body carries a choices list, the
text fields of its elements. -/
structure HttpResponse where
  status : Nat
  choices : Option (List (List Char))
  deriving DecidableEq, Repr

/-- The value bound to the name response when get_response returns: either
the extracted completion text, or, on the caught KeyError, the raw
response object itself. -/
inductive GetResponseResult where
  | text : List Char → GetResponseResult
  | raw : HttpResponse → GetResponseResult
  deriving DecidableEq, Repr

/-- get_response from auto-docstring/auto-docstring.py (lines 177-220): on a
body with a choices list the first element's text is extracted (an empty
choices list raises an uncaught IndexError); when the key is absent the
KeyError is caught, the body is printed to stderr, and the raw response
object is returned. -/
def get_response (resp : HttpResponse) : Except PyExc GetResponseResult :=
  match resp.choices with
  | some [] => .error .indexError
  | some (t :: _) => .ok (.text t)
  | none => .ok (.raw resp)

/-- Python truthiness of the value returned by get_response, as tested by
the line if not response in main: a string is truthy when nonempty; a
requests Response object is truthy exactly when its status code is below
400. -/
def pyTruthy : GetResponseResult → Bool
  | .text t => !t.isEmpty
  | .raw r => decide (r.status < 400)

/-- One iteration of the loop of main (auto-docstring/auto-docstring.py
lines 282-305) at the level of a raw HTTP response: a falsy result skips
the chunk leaving the code unchanged; a truthy string is spliced in; a
truthy raw response object reaches the string join and raises TypeError. -/
def docstringStep (code chunk : List Char) (resp : HttpResponse) :
    Except PyExc (List Char) :=
  match get_response resp with
  | .error e => .error e
  | .ok r =>
    if pyTruthy r then
      match r with
      | .text t => .ok (pyReplace code chunk (mergeDocstringChunk chunk t))
      | .raw _ => .error .typeError
    else .ok code

/-- The response handling of comment_chunk in
auto-commenter/auto-commenter.py (lines 110-112): the text field of the
first choice is read with no exception handler, so an absent key or an
empty list propagates as an uncaught exception. -/
def comment_chunk_response (resp : HttpResponse) : Except PyExc (List Char) :=
  match resp.choices with
  | none => .error .keyError
  | some [] => .error .indexError
  | some (t :: _) => .ok t

/-- ASCII word character of the identifier class in the get_functions
regex. -/
def isWordChar (c : Char) : Bool :=
  c.isAlpha || c.isDigit || c == '_'

/-- Attempt to match the get_functions regex (auto-commenter.py line 92) at
the head of the list: the three characters d e f, one or more whitespace
characters, a nonempty identifier (captured), then optional whitespace, an
opening parenthesis, optional whitespace, a closing parenthesis, optional
whitespace and a colon.  Returns the captured identifier and the rest of
the input after the match. -/
def tryMatchDef (cs : List Char) : Option (List Char × List Char) :=
  if ("def".toList).isPrefixOf cs then
    let r1 := cs.drop 3
    let sp := r1.takeWhile isPySpace
    if sp.isEmpty then none
    else
      let r2 := r1.drop sp.length
      let name := r2.takeWhile isWordChar
      if name.isEmpty then none
      else
        match (r2.drop name.length).dropWhile isPySpace with
        | '(' :: r4 =>
          (match r4.dropWhile isPySpace with
           | ')' :: r5 =>
             (match r5.dropWhile isPySpace with
              | ':' :: r6 => some (name, r6)
              | _ => none)
           | _ => none)
        | _ => none
  else none

/-- Worker for get_functions: scan left to right, collecting the captured
identifiers of each leftmost non-overlapping match, as re.findall does.
fuel is initialized to the string length, which suffices because every
step consumes at least one character. -/
def getFunctionsAux : Nat → List Char → List (List Char)
  | 0, _ => []
  | _ + 1, [] => []
  | fuel + 1, c :: t =>
    match tryMatchDef (c :: t) with
    | some (name, rest) => name :: getFunctionsAux fuel rest
    | none => getFunctionsAux fuel t

/-- get_functions from auto-commenter.py (lines 88-94): re.findall of the
zero-argument definition pattern over the whole code. -/
def get_functions (code : List Char) : List (List Char) :=
  getFunctionsAux code.length code

/-- Worker for Python s.find: index of the leftmost occurrence of pat, or
minus one. -/
def pyFindAux (pat : List Char) : Nat → List Char → Int
  | i, [] => if pat.isEmpty then (i : Int) else -1
  | i, c :: t => if pat.isPrefixOf (c :: t) then (i : Int) else pyFindAux pat (i + 1) t

/-- Python code.find(pat). -/
def pyFind (s pat : List Char) : Int :=
  pyFindAux pat 0 s

/-- Worker for Python s.rfind: remembers the rightmost occurrence seen. -/
def pyRfindAux (pat : List Char) : Nat → Int → List Char → Int
  | i, best, [] => if pat.isEmpty then (i : Int) else best
  | i, best, c :: t =>
    pyRfindAux pat (i + 1) (if pat.isPrefixOf (c :: t) then (i : Int) else best) t

/-- Python code.rfind(pat). -/
def pyRfind (s pat : List Char) : Int :=
  pyRfindAux pat 0 (-1) s

/-- Python slice s[:i] with a possibly negative index. -/
def pySliceTo (s : List Char) (i : Int) : List Char :=
  s.take (if 0 ≤ i then i.toNat else ((s.length : Int) + i).toNat)

/-- Python slice s[i:] with a possibly negative index. -/
def pySliceFrom (s : List Char) (i : Int) : List Char :=
  s.drop (if 0 ≤ i then i.toNat else ((s.length : Int) + i).toNat)

/-- Worker for Python s.split(sep) with nonempty sep: split at each leftmost
non-overlapping occurrence.  fuel is initialized to the string length plus
one, which suffices because every step consumes at least one character. -/
def pySplitAux (sep : List Char) : Nat → List Char → List Char → List (List Char)
  | 0, cur, s => [cur.reverse ++ s]
  | _ + 1, cur, [] => [cur.reverse]
  | fuel + 1, cur, c :: t =>
    if sep.isPrefixOf (c :: t) then cur.reverse :: pySplitAux sep fuel [] ((c :: t).drop sep.length)
    else pySplitAux sep fuel (c :: cur) t

/-- Python s.split(sep).  An empty separator raises ValueError in Python;
the callers below always pass a separator beginning with a newline, so
that case is never reached and is mapped to the whole string. -/
def pySplit (s sep : List Char) : List (List Char) :=
  if sep.isEmpty then [s] else pySplitAux sep (s.length + 1) [] s

/-- Newline join used by split_code for the slice assignments. -/
def joinNl (parts : List (List Char)) : List Char :=
  pyJoin ['\n'] parts

/-- split_code from auto-commenter.py (lines 97-148).  With no functions
found, the subscript functions[0] raises an uncaught IndexError.  Otherwise
top and bottom are sliced around find and rfind of the reconstructed
definition lines, each name is split on newlines, the first loop strips the
keyword and colon from the name and re-splits the (empty) tail on newlines,
and the second loop re-splits the tail on the following name or on the
bottom text. -/
def split_code (code : List Char) :
    Except PyExc (List Char × List (List (List Char)) × List Char) :=
  match get_functions code with
  | [] => .error .indexError
  | f0 :: fs =>
    let functions := f0 :: fs
    let lastf := functions.getLastD []
    let start_index := pyFind code (("def ".toList) ++ f0 ++ ("():".toList))
    let end_index := pyRfind code (("def ".toList) ++ lastf ++ ("():".toList))
    let top := pySliceTo code start_index
    let bottom := pySliceFrom code end_index
    let funcs1 := functions.map (fun f => pySplit f ['\n'])
    let funcs2 := funcs1.map (fun f =>
      match f with
      | [] => []
      | h0 :: rest =>
        (pyReplace (pyReplace h0 ("def ".toList) []) [':'] []) ::
          pySplit (joinNl rest) ['\n'])
    let n := funcs2.length
    let funcs3 := (List.range n).map (fun i =>
      match funcs2.getD i [] with
      | [] => []
      | h0 :: rest =>
        if i < n - 1 then
          h0 :: pySplit (joinNl rest) ('\n' :: (funcs2.getD (i + 1) []).headD [])
        else h0 :: pySplit (joinNl rest) ('\n' :: bottom))
    .ok (top, funcs3, bottom)

/-- Where a run writes its annotated result. -/
inductive OutputDest where
  | file : List Char → OutputDest
  | stdout : OutputDest
  deriving DecidableEq, Repr

/-- The output destination chosen by output_code in
auto-docstring/auto-docstring.py (lines 252-267): with a command-line path
the code is written to that path plus the suffix .new, otherwise printed. -/
def output_code_dest (argPath : Option (List Char)) : OutputDest :=
  match argPath with
  | some fn => .file (fn ++ (".new".toList))
  | none => .stdout

/-- The output destination of comment_code_from_file in
auto-commenter/auto-commenter.py (lines 125-136): always the input path
plus the suffix .new. -/
def comment_code_from_file_dest (filename : List Char) : OutputDest :=
  .file (filename ++ (".new".toList))




/-! Helper lemmas. -/

/-- Every element of a joined list is an infix of the join. -/
theorem pyJoin_contains (sep : List Char) :
    ∀ (L : List (List Char)) (x : List Char), x ∈ L → List.IsInfix x (pyJoin sep L)
  | [], x, h => absurd h (List.not_mem_nil x)
  | [y], x, h => by
    rcases List.mem_singleton.mp h with rfl
    exact ⟨[], [], by simp [pyJoin]⟩
  | y :: z :: t, x, h => by
    rcases List.mem_cons.mp h with rfl | h2
    · exact ⟨[], sep ++ pyJoin sep (z :: t), by simp [pyJoin]⟩
    · obtain ⟨s1, s2, hh⟩ := pyJoin_contains sep (z :: t) x h2
      exact ⟨y ++ sep ++ s1, s2, by simp [pyJoin, ← hh]⟩

/-- Concatenating the chunks built by the split_into_chunks loop yields the
accumulator followed by every line with a newline appended. -/
theorem sicAux_join (lines : List (List Char)) :
    ∀ cur, (sicAux cur lines).flatten = cur ++ (lines.map (fun l => l ++ ['\n'])).flatten := by
  induction lines with
  | nil => intro cur; simp [sicAux]
  | cons line rest ih =>
    intro cur
    cases h : isDefLine line with
    | true => simp [sicAux, h, ih]
    | false => simp [sicAux, h, ih]

/-- The split_into_chunks loop produces one chunk more than the number of
lines matching the definition pattern. -/
theorem sicAux_length (lines : List (List Char)) :
    ∀ cur, (sicAux cur lines).length = 1 + (lines.filter isDefLine).length := by
  induction lines with
  | nil => intro cur; simp [sicAux]
  | cons line rest ih =>
    intro cur
    cases h : isDefLine line with
    | true => simp [sicAux, h, ih, Nat.add_comm]
    | false => simp [sicAux, h, ih]

/-- Rebuilding the lines of splitlines with a newline after each line
recovers the input, provided the input uses only the newline character as a
line boundary and ends with a newline. -/
theorem splitlines_reconstruct (cs : List Char) :
    ∀ cur : List Char,
      (∀ c ∈ cs, isLineBreak c = true → c = '\n') →
      (cs = [] → cur = []) →
      (cs = [] ∨ cs.getLast? = some '\n') →
      ((splitlinesAux false cur cs).map (fun l => l ++ ['\n'])).flatten = cur.reverse ++ cs := by
  induction cs with
  | nil =>
    intro cur _ h2 _
    simp [splitlinesAux, h2 rfl]
  | cons c cs' ih =>
    intro cur h1 _ h3
    have h3' : (c :: cs').getLast? = some '\n' := by
      rcases h3 with h | h
      · exact absurd h (by simp)
      · exact h
    by_cases hc : c = '\n'
    · subst hc
      have haux : splitlinesAux false cur ('\n' :: cs') =
          cur.reverse :: splitlinesAux false [] cs' := by
        simp [splitlinesAux, (show isLineBreak '\n' = true by decide)]
      rw [haux]
      cases cs' with
      | nil =>
        simp [splitlinesAux]
      | cons d ds =>
        have hrec := ih [] (fun x hx => h1 x (List.mem_cons_of_mem _ hx)) (by simp)
          (Or.inr (by rw [← List.getLast?_cons_cons]; exact h3'))
        simp only [List.map_cons, List.flatten_cons, hrec]
        simp
    · have hb : isLineBreak c = false := by
        cases hbc : isLineBreak c with
        | false => rfl
        | true => exact absurd (h1 c (List.mem_cons_self _ _) hbc) hc
      have hcr : c ≠ '\r' := by
        intro h; rw [h] at hb; exact absurd hb (by decide)
      have haux : splitlinesAux false cur (c :: cs') =
          splitlinesAux false (c :: cur) cs' := by
        simp [splitlinesAux, hc, hcr, hb]
      have hne : cs' ≠ [] := by
        intro h; rw [h] at h3'; simp at h3'; exact hc h3'
      obtain ⟨d, ds, rfl⟩ : ∃ d ds, cs' = d :: ds := by
        cases cs' with
        | nil => exact absurd rfl hne
        | cons d ds => exact ⟨d, ds, rfl⟩
      have hrec := ih (c :: cur) (fun x hx => h1 x (List.mem_cons_of_mem _ hx))
        (by simp) (Or.inr (by rw [← List.getLast?_cons_cons]; exact h3'))
      rw [haux, hrec]
      simp

/-! Claim C1. -/

/-- C1 is false on the code: for the scenario input and an oracle whose
output alters the return line, the pipeline's output is not the original
input; comment_chunk returns the oracle text unconditionally, so there is
no merge step setting accepted to false. -/
theorem c1_counterexample :
    comment_code [] (fun _ => ("def add(a, b):\n    return a - b\n".toList))
      ("def add(a, b):\n    return a + b\n".toList) ≠
      "def add(a, b):\n    return a + b\n".toList := by decide

/-- C1 amended: the auto-commenter pipeline performs no safety merge.  Every
chunk's oracle output appears verbatim as an infix of the final output, and
on the scenario input with the altered oracle text the output is the
newline join of the oracle texts, not the original source. -/
theorem c1_no_merge_step :
    (∀ (ex : List Char) (oracle : List Char → List Char) (code chunk : List Char),
        chunk ∈ split_into_chunks code →
        List.IsInfix (comment_chunk ex oracle chunk) (comment_code ex oracle code)) ∧
    comment_code [] (fun _ => ("def add(a, b):\n    return a - b\n".toList))
        ("def add(a, b):\n    return a + b\n".toList) =
      ("def add(a, b):\n    return a - b\n".toList) ++ '\n' ::
        ("def add(a, b):\n    return a - b\n".toList) := by
  constructor
  · intro ex oracle code chunk hmem
    exact pyJoin_contains _ _ _ (List.mem_map_of_mem (comment_chunk ex oracle) hmem)
  · decide

/-- Witness for the amended C1 at a concrete input. -/
theorem c1_witness :
    List.IsInfix (comment_chunk [] (fun _ => ['#']) [])
      (comment_code [] (fun _ => ['#']) ("def f():\n".toList)) :=
  c1_no_merge_step.1 [] (fun _ => ['#']) ("def f():\n".toList) [] (by decide)

/-! Claim C2. -/

/-- C2 is false on the code: a source without a trailing newline is not
reproduced by split_into_chunks (a newline is appended), and
get_code_chunks drops all non-function text, so concatenation cannot
reproduce the source either. -/
theorem c2_counterexample :
    (split_into_chunks ("x".toList)).flatten ≠ "x".toList ∧
    (get_code_chunks ("def f():\n    return 1\n\nx = 1\n".toList)).flatten ≠
      "def f():\n    return 1\n\nx = 1\n".toList := by decide

/-- C2 amended: concatenating the chunks of split_into_chunks reproduces the
source byte-for-byte for every source that uses only the newline character
as a line boundary and is empty or ends with a newline. -/
theorem c2_roundtrip (code : List Char)
    (h1 : ∀ c ∈ code, isLineBreak c = true → c = '\n')
    (h2 : code = [] ∨ code.getLast? = some '\n') :
    (split_into_chunks code).flatten = code := by
  rw [split_into_chunks, sicAux_join, splitlines]
  rcases h2 with rfl | h2
  · simp [splitlinesAux]
  · have h0 : code = [] → ([] : List Char) = [] := fun _ => rfl
    have := splitlines_reconstruct code [] h1 h0 (Or.inr h2)
    simpa using this

/-- Witness for the amended C2 at a concrete input. -/
theorem c2_witness :
    (split_into_chunks ("a = 1\ndef f(x):\n    return x\n".toList)).flatten =
      "a = 1\ndef f(x):\n    return x\n".toList :=
  c2_roundtrip _ (by decide) (by decide)

/-! Claim C3. -/

/-- C3 is false on the code: split_into_chunks splits at a
definition-looking line even when it lies inside a triple-quoted string
literal; the second chunk starts at the line inside the literal. -/
theorem c3_counterexample :
    split_into_chunks ("x = 1\ns = \"\"\"\ndef fake():\n\"\"\"\n".toList) =
      ["x = 1\ns = \"\"\"\n".toList, "def fake():\n\"\"\"\n".toList] := by decide

/-- C3 amended: boundary detection is pure line-pattern matching with no
lexical-literal tracking; the number of chunks always equals one plus the
number of lines matching the definition pattern, whether or not those lines
lie inside string literals. -/
theorem c3_pattern_matching_only (code : List Char) :
    (split_into_chunks code).length = 1 + ((splitlines code).filter isDefLine).length := by
  rw [split_into_chunks]
  exact sicAux_length _ _

/-- Every chunk kept by get_code_chunks starts with the four characters of
the definition keyword and a space. -/
theorem get_code_chunks_all_def (code : List Char) :
    ∀ ch ∈ get_code_chunks code, ("def ".toList).isPrefixOf ch = true := by
  intro ch hch
  have hp := List.of_mem_filter hch
  have hp' := Bool.and_eq_true_iff.mp hp
  have hmatch : matchesChunkDef ch = true := hp'.1
  have hnind : matchesIndentedDef ch = false := by
    have := hp'.2
    cases h : matchesIndentedDef ch with
    | false => rfl
    | true => rw [h] at this; exact absurd this (by decide)
  cases ch with
  | nil => exact absurd hmatch (by decide)
  | cons c t =>
    cases hsp : isPySpace c with
    | true =>
      exfalso
      have : matchesIndentedDef (c :: t) = true := by
        rw [matchesIndentedDef, hsp]
        rw [matchesChunkDef] at hmatch
        simpa using hmatch
      rw [this] at hnind
      exact absurd hnind (by decide)
    | false =>
      rw [matchesChunkDef, List.dropWhile_cons, hsp] at hmatch
      simpa using hmatch

/-- The split_into_chunks loop never returns an empty list of chunks. -/
theorem sicAux_ne_nil (lines : List (List Char)) :
    ∀ cur, sicAux cur lines ≠ [] := by
  induction lines with
  | nil => intro cur; simp [sicAux]
  | cons line rest ih =>
    intro cur
    cases h : isDefLine line with
    | true => simp [sicAux, h]
    | false => simp only [sicAux, h]; simpa using ih _

/-- The default head of a nonempty list is a member. -/
theorem headD_mem {α : Type} (l : List α) (d : α) (h : l ≠ []) : l.headD d ∈ l := by
  cases l with
  | nil => exact absurd rfl h
  | cons a t => simp

/-! Claim C4. -/

/-- C4 is false on the code, and the code contradicts its own module
docstring (auto-docstring/auto-docstring.py lines 35-39, which promise that
the replacement consists of the function definition line, the docstring and
the original function code): the spliced chunk built by main is the oracle
response followed by the body only; the definition line is dropped and
never re-inserted. -/
theorem c4_definition_line_dropped :
    mergeDocstringChunk ("def add(a, b):\n    return a + b".toList)
        ("    \"\"\"Add a and b.\"\"\"".toList) =
      "    \"\"\"Add a and b.\"\"\"\n    return a + b".toList ∧
    ¬ List.IsInfix ("def add".toList)
      (mergeDocstringChunk ("def add(a, b):\n    return a + b".toList)
        ("    \"\"\"Add a and b.\"\"\"".toList)) := by
  constructor
  · decide
  · decide

/-! Claim C5. -/

/-- C5 is false on the code: a 2xx response whose body lacks the choices
field makes get_response return the raw response object, which is truthy,
reaches the string join in main and raises TypeError -- the segment is not
skipped and no MalformedResponse failure exists. -/
theorem c5_counterexample :
    docstringStep ("def g():\n    return 2".toList) ("def g():\n    return 2".toList)
      ⟨200, none⟩ = .error .typeError := by decide

/-- C5 amended: when the body lacks the expected field, the segment is
skipped with the code unchanged only when the HTTP status makes the
response object falsy (status at least 400); for a status below 400 the
run raises an uncaught TypeError; and in the auto-commenter script the
missing key propagates as an uncaught KeyError. -/
theorem c5_missing_field_behaviour :
    (∀ (code chunk : List Char) (r : HttpResponse), 400 ≤ r.status → r.choices = none →
        docstringStep code chunk r = .ok code) ∧
    (∀ (code chunk : List Char) (r : HttpResponse), r.status < 400 → r.choices = none →
        docstringStep code chunk r = .error .typeError) ∧
    (∀ r : HttpResponse, r.choices = none → comment_chunk_response r = .error .keyError) := by
  refine ⟨?_, ?_, ?_⟩
  · intro code chunk r hs hc
    simp [docstringStep, get_response, hc, pyTruthy, Nat.not_lt.mpr hs]
  · intro code chunk r hs hc
    simp [docstringStep, get_response, hc, pyTruthy, hs]
  · intro r hc
    simp [comment_chunk_response, hc]

/-- Witness for the amended C5 at concrete responses. -/
theorem c5_witness :
    docstringStep ("a".toList) ("b".toList) ⟨429, none⟩ = .ok ("a".toList) ∧
    docstringStep ("a".toList) ("b".toList) ⟨204, none⟩ = .error .typeError ∧
    comment_chunk_response ⟨200, none⟩ = .error .keyError :=
  ⟨c5_missing_field_behaviour.1 _ _ _ (by decide) rfl,
   c5_missing_field_behaviour.2.1 _ _ _ (by decide) rfl,
   c5_missing_field_behaviour.2.2 _ rfl⟩

/-! Claim C6. -/

/-- C6 is false on the code: in the auto-commenter pipeline the preamble
chunk before the first function is passed to the oracle like any other
chunk, and the output contains the oracle's text in its place, so the
preamble does not appear verbatim. -/
theorem c6_counterexample :
    comment_code [] (fun _ => ['#']) ("x = 1\ndef f():\n    return 1\n".toList) =
      "#\n#".toList ∧
    ¬ List.IsInfix ("x = 1".toList)
      (comment_code [] (fun _ => ['#']) ("x = 1\ndef f():\n    return 1\n".toList)) := by
  constructor
  · decide
  · decide

/-- C6 amended: in the docstring pipeline every chunk sent to the oracle
starts with a definition line, so preamble text is never sent; in the
auto-commenter pipeline the preamble chunk is itself sent to the oracle and
its oracle output, not the original preamble, appears in the final
output. -/
theorem c6_preamble_handling :
    (∀ (code : List Char), ∀ ch ∈ get_code_chunks code,
        ("def ".toList).isPrefixOf ch = true) ∧
    (∀ (ex : List Char) (oracle : List Char → List Char) (code : List Char),
        List.IsInfix (comment_chunk ex oracle ((split_into_chunks code).headD []))
          (comment_code ex oracle code)) := by
  constructor
  · exact get_code_chunks_all_def
  · intro ex oracle code
    have hne : split_into_chunks code ≠ [] := sicAux_ne_nil _ _
    have hmem := headD_mem (split_into_chunks code) [] hne
    exact pyJoin_contains _ _ _ (List.mem_map_of_mem (comment_chunk ex oracle) hmem)

/-- Witness for the amended C6 at concrete inputs. -/
theorem c6_witness :
    ("def ".toList).isPrefixOf ("def f():\n    return 1".toList) = true ∧
    List.IsInfix (comment_chunk [] (fun _ => ['#']) ((split_into_chunks ("a = 1\n".toList)).headD []))
      (comment_code [] (fun _ => ['#']) ("a = 1\n".toList)) :=
  ⟨c6_preamble_handling.1 ("x = 9\n\ndef f():\n    return 1".toList) _ (by decide),
   c6_preamble_handling.2 [] _ _⟩

/-! Claim C7. -/

/-- C7 is false on the code: on zero-function input get_functions returns
an empty list, but the chunking function split_code then raises an
IndexError at the subscript functions[0] instead of succeeding. -/
theorem c7_counterexample :
    get_functions ("x = 1\n".toList) = [] ∧
    split_code ("x = 1\n".toList) = .error .indexError := by decide

/-- C7 amended: boundary detection returns an empty sequence without error
on zero-function input, and split_into_chunks indeed treats such input as
a single preamble-only chunk, but split_code raises an uncaught IndexError
whenever no function is found. -/
theorem c7_no_boundaries :
    (∀ code : List Char, get_functions code = [] →
        split_code code = .error .indexError) ∧
    (∀ code : List Char, (splitlines code).filter isDefLine = [] →
        (split_into_chunks code).length = 1) := by
  constructor
  · intro code h
    simp [split_code, h]
  · intro code h
    rw [split_into_chunks, sicAux_length, h]
    rfl

/-- Witness for the amended C7 at a concrete input. -/
theorem c7_witness :
    split_code ("y = 2\n".toList) = .error .indexError ∧
    (split_into_chunks ("y = 2\n".toList)).length = 1 :=
  ⟨c7_no_boundaries.1 _ (by decide), c7_no_boundaries.2 _ (by decide)⟩

/-! Claim C8. -/

/-- C8 confirmed: with a file path the annotated result goes to the sibling
path with the suffix .new, which is never the input path, and without a
path it goes to standard output; this holds for output_code in the
docstring script and comment_code_from_file in the commenter script. -/
theorem c8_output_destination :
    (∀ fn : List Char, output_code_dest (some fn) = .file (fn ++ (".new".toList)) ∧
        fn ++ (".new".toList) ≠ fn) ∧
    output_code_dest none = .stdout ∧
    (∀ fn : List Char, comment_code_from_file_dest fn ≠ .file fn) := by
  have hlen : (".new".toList).length = 4 := by decide
  refine ⟨fun fn => ⟨rfl, fun h => ?_⟩, rfl, fun fn h => ?_⟩
  · have := congrArg List.length h
    rw [List.length_append, hlen] at this
    omega
  · rw [comment_code_from_file_dest] at h
    have h2 : fn ++ (".new".toList) = fn := by
      injection h
    have := congrArg List.length h2
    rw [List.length_append, hlen] at this
    omega

/-! Claim C9. -/

/-- C9 confirmed: both pipelines are deterministic functions of the input
source, the worked example and the oracle's input-output behaviour; two
runs with identical input, identical example and oracles that agree on
every prompt produce identical output. -/
theorem c9_determinism :
    (∀ (ex : List Char) (o1 o2 : List Char → List Char) (code : List Char),
        (∀ p, o1 p = o2 p) → comment_code ex o1 code = comment_code ex o2 code) ∧
    (∀ (ex : List Char) (o1 o2 : List Char → List Char) (code : List Char),
        (∀ p, o1 p = o2 p) → autoDocstringRun ex o1 code = autoDocstringRun ex o2 code) := by
  constructor
  · intro ex o1 o2 code h
    have hch : comment_chunk ex o1 = comment_chunk ex o2 := by
      funext c
      simp [comment_chunk, h]
    rw [comment_code, comment_code, hch]
  · intro ex o1 o2 code h
    have hst : autoDocstringStep ex o1 = autoDocstringStep ex o2 := by
      funext acc chunk
      simp [autoDocstringStep, h]
    rw [autoDocstringRun, autoDocstringRun, hst]

/-- Witness for C9 at a concrete input. -/
theorem c9_witness :
    comment_code [] (fun _ => ['#']) ("a".toList) =
      comment_code [] (fun _ => ['#']) ("a".toList) ∧
    autoDocstringRun [] (fun _ => ['#']) ("a".toList) =
      autoDocstringRun [] (fun _ => ['#']) ("a".toList) :=
  ⟨c9_determinism.1 [] _ _ _ (fun _ => rfl), c9_determinism.2 [] _ _ _ (fun _ => rfl)⟩

/-! Occurrence-counting lemmas for Python replace. -/

/-- Unfolding lemma for countOcc at a cons cell. -/
theorem countOcc_cons (pat : List Char) (c : Char) (t : List Char) :
    countOcc pat (c :: t) = (if pat.isPrefixOf (c :: t) then 1 else 0) + countOcc pat t := rfl

/-- Step lemma for the replace worker when the pattern does not match
here. -/
theorem pyReplaceAux_cons_neg (pat rep : List Char) (f : Nat) (c : Char) (t : List Char)
    (h : pat.isPrefixOf (c :: t) = false) :
    pyReplaceAux pat rep (f + 1) (c :: t) = c :: pyReplaceAux pat rep f t := by
  rw [pyReplaceAux, if_neg]
  simp [h]

/-- Step lemma for the replace worker when the pattern matches here. -/
theorem pyReplaceAux_cons_pos (pat rep : List Char) (f : Nat) (c : Char) (t : List Char)
    (h : pat.isPrefixOf (c :: t) = true) :
    pyReplaceAux pat rep (f + 1) (c :: t) =
      rep ++ pyReplaceAux pat rep f ((c :: t).drop pat.length) := by
  rw [pyReplaceAux, if_pos]
  simpa using h

/-- With no occurrence of the pattern, the replace worker is the
identity. -/
theorem replaceAux_of_countOcc_zero (pat rep : List Char) :
    ∀ (fuel : Nat) (s : List Char), s.length ≤ fuel → countOcc pat s = 0 →
      pyReplaceAux pat rep fuel s = s := by
  intro fuel
  induction fuel with
  | zero =>
    intro s hf _
    cases s with
    | nil => rfl
    | cons c t => exact absurd hf (by simp)
  | succ f ih =>
    intro s hf hc
    cases s with
    | nil => rfl
    | cons c t =>
      have hnp : pat.isPrefixOf (c :: t) = false := by
        cases h : pat.isPrefixOf (c :: t) with
        | false => rfl
        | true => rw [countOcc_cons, h] at hc; simp at hc
      rw [countOcc_cons, hnp] at hc
      simp only [Bool.false_eq_true, if_false, Nat.zero_add] at hc
      rw [pyReplaceAux_cons_neg pat rep f c t hnp]
      have ht : t.length ≤ f := by
        simp only [List.length_cons] at hf
        omega
      rw [ih t ht hc]

/-- Occurrences in a suffix are occurrences in the whole list. -/
theorem countOcc_le_append (pat l2 : List Char) :
    ∀ l1 : List Char, countOcc pat l2 ≤ countOcc pat (l1 ++ l2) := by
  intro l1
  induction l1 with
  | nil => simp
  | cons a t ih =>
    calc countOcc pat l2 ≤ countOcc pat (t ++ l2) := ih
    _ ≤ countOcc pat (a :: (t ++ l2)) := by rw [countOcc_cons]; omega
    _ = countOcc pat ((a :: t) ++ l2) := rfl

/-- A list is a Boolean prefix of itself followed by anything. -/
theorem isPrefixOf_self_append : ∀ (l t : List Char), l.isPrefixOf (l ++ t) = true := by
  intro l
  induction l with
  | nil => intro t; simp [List.isPrefixOf]
  | cons a l ih => intro t; simp [List.isPrefixOf, ih]

/-- The pattern occurs at least once at the front of pat ++ suf. -/
theorem countOcc_self_append (pat suf : List Char) (hpat : pat ≠ []) :
    1 ≤ countOcc pat (pat ++ suf) := by
  obtain ⟨p, pr, rfl⟩ : ∃ p pr, pat = p :: pr := by
    cases pat with
    | nil => exact absurd rfl hpat
    | cons p pr => exact ⟨p, pr, rfl⟩
  have hpre : (p :: pr).isPrefixOf (p :: (pr ++ suf)) = true :=
    isPrefixOf_self_append (p :: pr) suf
  show 1 ≤ countOcc (p :: pr) (p :: (pr ++ suf))
  rw [countOcc_cons, if_pos hpre]
  omega

/-- Replacing a pattern that occurs exactly once rewrites exactly that
occurrence. -/
theorem replaceAux_single_occurrence (pat rep : List Char) (hpat : pat ≠ []) :
    ∀ (pre suf : List Char) (fuel : Nat),
      (pre ++ pat ++ suf).length ≤ fuel →
      countOcc pat (pre ++ pat ++ suf) = 1 →
      pyReplaceAux pat rep fuel (pre ++ pat ++ suf) = pre ++ rep ++ suf := by
  intro pre
  induction pre with
  | nil =>
    intro suf fuel hf hc
    obtain ⟨p, pr, rfl⟩ : ∃ p pr, pat = p :: pr := by
      cases pat with
      | nil => exact absurd rfl hpat
      | cons p pr => exact ⟨p, pr, rfl⟩
    cases fuel with
    | zero => exact absurd hf (by simp)
    | succ f =>
      have hpre : (p :: pr).isPrefixOf (p :: (pr ++ suf)) = true :=
        isPrefixOf_self_append (p :: pr) suf
      have hc2 : countOcc (p :: pr) (p :: (pr ++ suf)) = 1 := by
        simpa using hc
      rw [countOcc_cons, if_pos hpre] at hc2
      have hc' : countOcc (p :: pr) (pr ++ suf) = 0 := by omega
      have hsuf : countOcc (p :: pr) suf = 0 := by
        have := countOcc_le_append (p :: pr) suf pr
        omega
      show pyReplaceAux (p :: pr) rep (f + 1) (p :: (pr ++ suf)) = [] ++ rep ++ suf
      rw [pyReplaceAux_cons_pos (p :: pr) rep f p (pr ++ suf) hpre]
      have hdrop : (p :: (pr ++ suf)).drop (p :: pr).length = suf := by
        show ((p :: pr) ++ suf).drop (p :: pr).length = suf
        exact List.drop_left _ _
      rw [hdrop]
      have hfs : suf.length ≤ f := by
        simp only [List.nil_append, List.length_append, List.length_cons] at hf
        omega
      rw [replaceAux_of_countOcc_zero (p :: pr) rep f suf hfs hsuf]
      simp
  | cons a pre' ih =>
    intro suf fuel hf hc
    cases fuel with
    | zero => exact absurd hf (by simp)
    | succ f =>
      have hc2 : countOcc pat (a :: (pre' ++ pat ++ suf)) = 1 := by
        simpa using hc
      have hnp : pat.isPrefixOf (a :: (pre' ++ pat ++ suf)) = false := by
        cases h : pat.isPrefixOf (a :: (pre' ++ pat ++ suf)) with
        | false => rfl
        | true =>
          exfalso
          have h1 : 1 ≤ countOcc pat (pat ++ suf) := countOcc_self_append pat suf hpat
          have h2 : countOcc pat (pat ++ suf) ≤ countOcc pat (pre' ++ (pat ++ suf)) :=
            countOcc_le_append pat (pat ++ suf) pre'
          rw [countOcc_cons, if_pos h] at hc2
          rw [List.append_assoc] at hc2
          omega
      have hc' : countOcc pat (pre' ++ pat ++ suf) = 1 := by
        rw [countOcc_cons, hnp] at hc2
        simpa using hc2
      show pyReplaceAux pat rep (f + 1) (a :: (pre' ++ pat ++ suf)) = (a :: pre') ++ rep ++ suf
      rw [pyReplaceAux_cons_neg pat rep f a (pre' ++ pat ++ suf) hnp]
      have hfs : (pre' ++ pat ++ suf).length ≤ f := by
        simp only [List.cons_append, List.length_cons] at hf
        simpa using Nat.le_of_succ_le_succ hf
      rw [ih suf f hfs hc']
      simp

/-- Python replace at a pattern with exactly one occurrence. -/
theorem pyReplace_single_occurrence (pat rep pre suf : List Char) (hpat : pat ≠ [])
    (hc : countOcc pat (pre ++ pat ++ suf) = 1) :
    pyReplace (pre ++ pat ++ suf) pat rep = pre ++ rep ++ suf := by
  rw [pyReplace, if_neg (by simpa using hpat)]
  exact replaceAux_single_occurrence pat rep hpat pre suf _ (Nat.le_refl _) hc

/-- Python replace at a pattern with no occurrence is the identity. -/
theorem pyReplace_of_countOcc_zero (s pat rep : List Char) (hpat : pat ≠ [])
    (hc : countOcc pat s = 0) :
    pyReplace s pat rep = s := by
  rw [pyReplace, if_neg (by simpa using hpat)]
  exact replaceAux_of_countOcc_zero pat rep s.length s (Nat.le_refl _) hc

/-- Witness for C8 at a concrete path. -/
theorem c8_witness :
    ("in.py".toList ++ (".new".toList)) ≠ "in.py".toList ∧
    comment_code_from_file_dest ("in.py".toList) ≠ .file ("in.py".toList) :=
  ⟨(c8_output_destination.1 _).2, c8_output_destination.2.2 _⟩

/-- Right-nested form of the single-occurrence replace lemma. -/
theorem pyReplace_single_occurrence_r (pat rep pre suf : List Char) (hpat : pat ≠ [])
    (hc : countOcc pat (pre ++ (pat ++ suf)) = 1) :
    pyReplace (pre ++ (pat ++ suf)) pat rep = pre ++ (rep ++ suf) := by
  have h1 : pre ++ (pat ++ suf) = pre ++ pat ++ suf := (List.append_assoc _ _ _).symm
  have h2 : pre ++ (rep ++ suf) = pre ++ rep ++ suf := (List.append_assoc _ _ _).symm
  rw [h1] at hc ⊢
  rw [h2]
  exact pyReplace_single_occurrence pat rep pre suf hpat hc

/-- A list of the shape pre, pat, mid, pat, suf carries at least two
occurrences of the pattern. -/
theorem countOcc_two_sites (pat mid suf : List Char) (hpat : pat ≠ []) :
    ∀ pre : List Char, 2 ≤ countOcc pat (pre ++ (pat ++ (mid ++ (pat ++ suf)))) := by
  intro pre
  induction pre with
  | nil =>
    obtain ⟨p, pr, rfl⟩ : ∃ p pr, pat = p :: pr := by
      cases pat with
      | nil => exact absurd rfl hpat
      | cons p pr => exact ⟨p, pr, rfl⟩
    have h1 : 1 ≤ countOcc (p :: pr) (mid ++ ((p :: pr) ++ suf)) := by
      have ha := countOcc_self_append (p :: pr) suf hpat
      have hb := countOcc_le_append (p :: pr) ((p :: pr) ++ suf) mid
      omega
    have hpre : (p :: pr).isPrefixOf (p :: (pr ++ (mid ++ ((p :: pr) ++ suf)))) = true :=
      isPrefixOf_self_append (p :: pr) (mid ++ ((p :: pr) ++ suf))
    have hmono := countOcc_le_append (p :: pr) (mid ++ ((p :: pr) ++ suf)) pr
    show 2 ≤ countOcc (p :: pr) (p :: (pr ++ (mid ++ ((p :: pr) ++ suf))))
    rw [countOcc_cons, if_pos hpre]
    omega
  | cons a pre' ih =>
    show 2 ≤ countOcc pat (a :: (pre' ++ (pat ++ (mid ++ (pat ++ suf)))))
    rw [countOcc_cons]
    split
    · omega
    · omega

/-- Replacing a pattern with exactly two occurrences rewrites both of them
in the single pass. -/
theorem replaceAux_double_occurrence (pat rep : List Char) (hpat : pat ≠ []) :
    ∀ (pre mid suf : List Char) (fuel : Nat),
      (pre ++ (pat ++ (mid ++ (pat ++ suf)))).length ≤ fuel →
      countOcc pat (pre ++ (pat ++ (mid ++ (pat ++ suf)))) = 2 →
      pyReplaceAux pat rep fuel (pre ++ (pat ++ (mid ++ (pat ++ suf)))) =
        pre ++ (rep ++ (mid ++ (rep ++ suf))) := by
  intro pre
  induction pre with
  | nil =>
    intro mid suf fuel hf hc
    obtain ⟨p, pr, rfl⟩ : ∃ p pr, pat = p :: pr := by
      cases pat with
      | nil => exact absurd rfl hpat
      | cons p pr => exact ⟨p, pr, rfl⟩
    cases fuel with
    | zero => exact absurd hf (by simp)
    | succ f =>
      have hpre : (p :: pr).isPrefixOf (p :: (pr ++ (mid ++ ((p :: pr) ++ suf)))) = true :=
        isPrefixOf_self_append (p :: pr) (mid ++ ((p :: pr) ++ suf))
      have hc2 : countOcc (p :: pr) (p :: (pr ++ (mid ++ ((p :: pr) ++ suf)))) = 2 := hc
      rw [countOcc_cons, if_pos hpre] at hc2
      have hmono := countOcc_le_append (p :: pr) (mid ++ ((p :: pr) ++ suf)) pr
      have hge : 1 ≤ countOcc (p :: pr) (mid ++ ((p :: pr) ++ suf)) := by
        have ha := countOcc_self_append (p :: pr) suf hpat
        have hb := countOcc_le_append (p :: pr) ((p :: pr) ++ suf) mid
        omega
      have hcX : countOcc (p :: pr) (mid ++ ((p :: pr) ++ suf)) = 1 := by omega
      show pyReplaceAux (p :: pr) rep (f + 1) (p :: (pr ++ (mid ++ ((p :: pr) ++ suf)))) =
        [] ++ (rep ++ (mid ++ (rep ++ suf)))
      rw [pyReplaceAux_cons_pos (p :: pr) rep f p (pr ++ (mid ++ ((p :: pr) ++ suf))) hpre]
      have hdrop : (p :: (pr ++ (mid ++ ((p :: pr) ++ suf)))).drop (p :: pr).length =
          mid ++ ((p :: pr) ++ suf) := by
        show ((p :: pr) ++ (mid ++ ((p :: pr) ++ suf))).drop (p :: pr).length = _
        exact List.drop_left _ _
      rw [hdrop]
      have hfs : (mid ++ ((p :: pr) ++ suf)).length ≤ f := by
        simp only [List.nil_append, List.length_append, List.length_cons] at hf ⊢
        omega
      have hXassoc : mid ++ ((p :: pr) ++ suf) = mid ++ (p :: pr) ++ suf :=
        (List.append_assoc _ _ _).symm
      rw [hXassoc] at hcX hfs ⊢
      rw [replaceAux_single_occurrence (p :: pr) rep hpat mid suf f hfs hcX]
      simp [List.append_assoc]
  | cons a pre' ih =>
    intro mid suf fuel hf hc
    cases fuel with
    | zero => exact absurd hf (by simp)
    | succ f =>
      have hc2 : countOcc pat (a :: (pre' ++ (pat ++ (mid ++ (pat ++ suf))))) = 2 := hc
      have hnp : pat.isPrefixOf (a :: (pre' ++ (pat ++ (mid ++ (pat ++ suf))))) = false := by
        cases h : pat.isPrefixOf (a :: (pre' ++ (pat ++ (mid ++ (pat ++ suf))))) with
        | false => rfl
        | true =>
          exfalso
          have htwo := countOcc_two_sites pat mid suf hpat pre'
          rw [countOcc_cons, if_pos h] at hc2
          omega
      have hc' : countOcc pat (pre' ++ (pat ++ (mid ++ (pat ++ suf)))) = 2 := by
        rw [countOcc_cons, hnp] at hc2
        simpa using hc2
      show pyReplaceAux pat rep (f + 1) (a :: (pre' ++ (pat ++ (mid ++ (pat ++ suf))))) =
        (a :: pre') ++ (rep ++ (mid ++ (rep ++ suf)))
      rw [pyReplaceAux_cons_neg pat rep f a (pre' ++ (pat ++ (mid ++ (pat ++ suf)))) hnp]
      have hfs : (pre' ++ (pat ++ (mid ++ (pat ++ suf)))).length ≤ f := by
        have hf2 : (a :: (pre' ++ (pat ++ (mid ++ (pat ++ suf))))).length ≤ f + 1 := hf
        simp only [List.length_cons] at hf2
        omega
      rw [ih mid suf f hfs hc']
      rfl

/-- Python replace at a pattern with exactly two occurrences rewrites both
in the single call. -/
theorem pyReplace_double_occurrence (pat rep pre mid suf : List Char) (hpat : pat ≠ [])
    (hc : countOcc pat (pre ++ (pat ++ (mid ++ (pat ++ suf)))) = 2) :
    pyReplace (pre ++ (pat ++ (mid ++ (pat ++ suf)))) pat rep =
      pre ++ (rep ++ (mid ++ (rep ++ suf))) := by
  rw [pyReplace, if_neg (by simpa using hpat)]
  exact replaceAux_double_occurrence pat rep hpat pre mid suf _ (Nat.le_refl _) hc

/-! Claim C10. -/

/-- C10 is false on the code at its stated scope: in a source whose two
extracted chunks each occur exactly once, an oracle response for the first
chunk that happens to contain the second chunk's text makes the second
substitution rewrite the copy inside the first splice as well, so the
second annotation is not applied only at that chunk's own position and the
output differs from the position-respecting result. -/
theorem c10_counterexample :
    countOcc ("def f():\n    return 1".toList)
        ("def f():\n    return 1\n\ndef g():\n    return 2".toList) = 1 ∧
    countOcc ("def g():\n    return 2".toList)
        ("def f():\n    return 1\n\ndef g():\n    return 2".toList) = 1 ∧
    get_code_chunks ("def f():\n    return 1\n\ndef g():\n    return 2".toList) =
      ["def f():\n    return 1".toList, "def g():\n    return 2".toList] ∧
    autoDocstringRun []
        (fun p => if p = get_prompt [] ("def f():\n    return 1".toList)
          then "    \"\"\"F\"\"\"\ndef g():\n    return 2".toList
          else "    \"\"\"G\"\"\"".toList)
        ("def f():\n    return 1\n\ndef g():\n    return 2".toList) ≠
      mergeDocstringChunk ("def f():\n    return 1".toList)
          ("    \"\"\"F\"\"\"\ndef g():\n    return 2".toList) ++
        "\n\n".toList ++
        mergeDocstringChunk ("def g():\n    return 2".toList)
          ("    \"\"\"G\"\"\"".toList) := by
  refine ⟨by decide, by decide, by decide, by decide⟩

/-- C10 amended: the docstring pipeline splices by global textual
substitution of the chunk in the whole accumulated source.  First, at every
iteration whose chunk occurs exactly once in the accumulated source, the
annotation lands exactly at that occurrence.  Second, for a two-chunk
source in which each chunk occurs exactly once and the first rewrite does
not re-introduce the second chunk's text (the condition the counterexample
violates), both annotations land exactly at their own chunks' positions.
Third, for two textually identical chunks, the first substitution rewrites
both occurrences at once, and when the rewritten text no longer contains
the chunk the second iteration changes nothing, so the later duplicate
receives no separate annotation. -/
theorem c10_amended_global_substitution :
    (∀ (ex : List Char) (oracle : List Char → List Char) (acc c pre suf : List Char),
        c ≠ [] →
        (oracle (get_prompt ex c)).isEmpty = false →
        acc = pre ++ c ++ suf →
        countOcc c acc = 1 →
        autoDocstringStep ex oracle acc c =
          pre ++ mergeDocstringChunk c (oracle (get_prompt ex c)) ++ suf) ∧
    (∀ (ex : List Char) (oracle : List Char → List Char) (c1 c2 pre mid suf : List Char),
        get_code_chunks (pre ++ c1 ++ mid ++ c2 ++ suf) = [c1, c2] →
        c1 ≠ [] → c2 ≠ [] →
        (oracle (get_prompt ex c1)).isEmpty = false →
        (oracle (get_prompt ex c2)).isEmpty = false →
        countOcc c1 (pre ++ c1 ++ mid ++ c2 ++ suf) = 1 →
        countOcc c2 (pre ++ mergeDocstringChunk c1 (oracle (get_prompt ex c1)) ++ mid ++
          c2 ++ suf) = 1 →
        autoDocstringRun ex oracle (pre ++ c1 ++ mid ++ c2 ++ suf) =
          pre ++ mergeDocstringChunk c1 (oracle (get_prompt ex c1)) ++ mid ++
            mergeDocstringChunk c2 (oracle (get_prompt ex c2)) ++ suf) ∧
    (∀ (ex : List Char) (oracle : List Char → List Char) (c pre mid suf : List Char),
        get_code_chunks (pre ++ c ++ mid ++ c ++ suf) = [c, c] →
        c ≠ [] →
        (oracle (get_prompt ex c)).isEmpty = false →
        countOcc c (pre ++ (c ++ (mid ++ (c ++ suf)))) = 2 →
        countOcc c (pre ++ mergeDocstringChunk c (oracle (get_prompt ex c)) ++ mid ++
          mergeDocstringChunk c (oracle (get_prompt ex c)) ++ suf) = 0 →
        autoDocstringRun ex oracle (pre ++ c ++ mid ++ c ++ suf) =
          pre ++ mergeDocstringChunk c (oracle (get_prompt ex c)) ++ mid ++
            mergeDocstringChunk c (oracle (get_prompt ex c)) ++ suf) := by
  refine ⟨?_, ?_, ?_⟩
  · intro ex oracle acc c pre suf hc hne hacc hcnt
    subst hacc
    have hstep : autoDocstringStep ex oracle (pre ++ c ++ suf) c =
        pyReplace (pre ++ c ++ suf) c (mergeDocstringChunk c (oracle (get_prompt ex c))) := by
      simp [autoDocstringStep, hne]
    rw [hstep]
    exact pyReplace_single_occurrence c _ pre suf hc hcnt
  · intro ex oracle c1 c2 pre mid suf hchunks h1 h2 hne1 hne2 hcnt1 hcnt2
    rw [autoDocstringRun, hchunks]
    simp only [List.foldl_cons, List.foldl_nil]
    have hs1 : autoDocstringStep ex oracle (pre ++ c1 ++ mid ++ c2 ++ suf) c1 =
        pyReplace (pre ++ c1 ++ mid ++ c2 ++ suf) c1
          (mergeDocstringChunk c1 (oracle (get_prompt ex c1))) := by
      simp [autoDocstringStep, hne1]
    rw [hs1]
    have hcnt1r : countOcc c1 (pre ++ (c1 ++ (mid ++ (c2 ++ suf)))) = 1 := by
      simpa [List.append_assoc] using hcnt1
    have e1 : pyReplace (pre ++ c1 ++ mid ++ c2 ++ suf) c1
        (mergeDocstringChunk c1 (oracle (get_prompt ex c1))) =
        pre ++ mergeDocstringChunk c1 (oracle (get_prompt ex c1)) ++ mid ++ c2 ++ suf := by
      have h := pyReplace_single_occurrence_r c1
        (mergeDocstringChunk c1 (oracle (get_prompt ex c1))) pre (mid ++ (c2 ++ suf)) h1 hcnt1r
      simpa [List.append_assoc] using h
    rw [e1]
    have hs2 : autoDocstringStep ex oracle
        (pre ++ mergeDocstringChunk c1 (oracle (get_prompt ex c1)) ++ mid ++ c2 ++ suf) c2 =
        pyReplace
          (pre ++ mergeDocstringChunk c1 (oracle (get_prompt ex c1)) ++ mid ++ c2 ++ suf) c2
          (mergeDocstringChunk c2 (oracle (get_prompt ex c2))) := by
      simp [autoDocstringStep, hne2]
    rw [hs2]
    have hcnt2r : countOcc c2
        ((pre ++ (mergeDocstringChunk c1 (oracle (get_prompt ex c1)) ++ mid)) ++
          (c2 ++ suf)) = 1 := by
      simpa [List.append_assoc] using hcnt2
    have h := pyReplace_single_occurrence_r c2
      (mergeDocstringChunk c2 (oracle (get_prompt ex c2)))
      (pre ++ (mergeDocstringChunk c1 (oracle (get_prompt ex c1)) ++ mid)) suf h2 hcnt2r
    simpa [List.append_assoc] using h
  · intro ex oracle c pre mid suf hchunks hc hne hcnt2 hcnt0
    rw [autoDocstringRun, hchunks]
    simp only [List.foldl_cons, List.foldl_nil]
    have hs : ∀ acc, autoDocstringStep ex oracle acc c =
        pyReplace acc c (mergeDocstringChunk c (oracle (get_prompt ex c))) := by
      intro acc
      simp [autoDocstringStep, hne]
    simp only [hs]
    have e1 : pyReplace (pre ++ c ++ mid ++ c ++ suf) c
        (mergeDocstringChunk c (oracle (get_prompt ex c))) =
        pre ++ mergeDocstringChunk c (oracle (get_prompt ex c)) ++ mid ++
          mergeDocstringChunk c (oracle (get_prompt ex c)) ++ suf := by
      have h := pyReplace_double_occurrence c
        (mergeDocstringChunk c (oracle (get_prompt ex c))) pre mid suf hc hcnt2
      simpa [List.append_assoc] using h
    rw [e1]
    exact pyReplace_of_countOcc_zero _ _ _ hc hcnt0

/-- Witness for the amended C10 at concrete inputs: a single-step splice, a
two-chunk source with distinct functions whose responses re-introduce no
chunk text, and a source made of two textually identical functions. -/
theorem c10_amended_witness :
    autoDocstringStep [] (fun _ => "    \"\"\"D\"\"\"".toList)
        ("def f():\n    return 1".toList) ("def f():\n    return 1".toList) =
      mergeDocstringChunk ("def f():\n    return 1".toList) ("    \"\"\"D\"\"\"".toList) ∧
    autoDocstringRun []
        (fun p => if p = get_prompt [] ("def f():\n    return 1".toList)
          then "    \"\"\"F\"\"\"".toList else "    \"\"\"G\"\"\"".toList)
        ("def f():\n    return 1\n\ndef g():\n    return 2".toList) =
      mergeDocstringChunk ("def f():\n    return 1".toList) ("    \"\"\"F\"\"\"".toList) ++
        "\n\n".toList ++
        mergeDocstringChunk ("def g():\n    return 2".toList) ("    \"\"\"G\"\"\"".toList) ∧
    autoDocstringRun [] (fun _ => "    \"\"\"D\"\"\"".toList)
        ("def f():\n    return 1\n\ndef f():\n    return 1".toList) =
      mergeDocstringChunk ("def f():\n    return 1".toList) ("    \"\"\"D\"\"\"".toList) ++
        "\n\n".toList ++
        mergeDocstringChunk ("def f():\n    return 1".toList) ("    \"\"\"D\"\"\"".toList) := by
  refine ⟨?_, ?_, ?_⟩
  · have h := c10_amended_global_substitution.1 [] (fun _ => "    \"\"\"D\"\"\"".toList)
      ("def f():\n    return 1".toList) ("def f():\n    return 1".toList) [] []
      (by decide) (by decide) (by simp) (by decide)
    simpa using h
  · have h := c10_amended_global_substitution.2.1 []
      (fun p => if p = get_prompt [] ("def f():\n    return 1".toList)
        then "    \"\"\"F\"\"\"".toList else "    \"\"\"G\"\"\"".toList)
      ("def f():\n    return 1".toList) ("def g():\n    return 2".toList)
      [] ("\n\n".toList) []
      (by decide) (by decide) (by decide) (by decide) (by decide) (by decide) (by decide)
    simpa using h
  · have h := c10_amended_global_substitution.2.2 [] (fun _ => "    \"\"\"D\"\"\"".toList)
      ("def f():\n    return 1".toList) [] ("\n\n".toList) []
      (by decide) (by decide) (by decide) (by decide) (by decide)
    simpa using h
